import Mathlib

/-!
# aespbkdf2: password-based AES-GCM encryption

A shallow embedding of `src/aespbkdf2.go` (`derivationKey`, `Encrypt`, `Decrypt`).

Modelling conventions.

* A Go `byte` is a `Fin 256`; a Go `string` and the contents of a `[]byte` are a
  `List Byte` (the conversions `[]byte(s)` and `string(b)` keep the bytes).  A
  `[]byte` that may be `nil` is an `Option (List Byte)` with `none` for `nil`.
* A run-time panic is a value of `GoPanic`; a function that can panic returns an
  `Outcome`.
* `crypto/rand` is an explicit state, `RandSource`, threaded through every call.
  A read that the source serves in full is the same in every Go version.  A read
  that it cannot serve differs: up to Go 1.23 `rand.Read` returns an error and
  leaves the buffer as it is (`randRead`, and `derivationKey`, `Encrypt` over it);
  since Go 1.24 `rand.Read` never returns an error and a failed read ends the
  process with a fatal error (`randReadFatal`, and `derivationKeyFatal`,
  `EncryptFatal` over it).
* The cryptographic cores the file imports (`pbkdf2.Key`, and what AES-GCM
  computes in `Seal` and `Open`) are the fields of `Primitives`; their contracts
  are stated as the predicates `KeyLength`, `SealLength` and `OpenSeal` and appear
  as hypotheses only where a theorem needs them.  The argument checks of the Go
  wrappers (`aes.NewCipher`, `cipher.NewGCM`, `Seal`, `Open`) are modelled
  concretely.
* `encoding/hex` and `strings.Split` are modelled concretely (Go 1.10 and later:
  `hex.DecodeString` returns the bytes decoded before an error).
-/

namespace Aespbkdf2

/-- A Go `byte`. -/
abbrev Byte := Fin 256

/-- The run-time panics the three functions can reach. -/
inductive GoPanic where
  /-- indexing a slice of length `len` at `index`. -/
  | indexOutOfRange (index len : Nat)
  /-- a method call through a nil interface value. -/
  | nilDereference
  /-- "crypto/cipher: incorrect nonce length given to GCM". -/
  | gcmNonceLength
  deriving DecidableEq, Repr

/-- Result of a Go call that either returns a value or panics. -/
inductive Outcome (α : Type) where
  | ret (v : α)
  | panic (p : GoPanic)
  deriving DecidableEq, Repr

/-! ## encoding/hex -/

/-- The table `hextable = "0123456789abcdef"`. -/
def hextable : List Byte :=
  [48, 49, 50, 51, 52, 53, 54, 55, 56, 57, 97, 98, 99, 100, 101, 102]

/-- `hex.EncodeToString`: every byte `v` becomes `hextable[v>>4]`, `hextable[v&0x0f]`. -/
def hexEncodeToString : List Byte → List Byte
  | [] => []
  | v :: vs => hextable.getD (v.val / 16) 0 :: hextable.getD (v.val % 16) 0 :: hexEncodeToString vs

/-- `fromHexChar`: the value of a hexadecimal digit, `none` for any other byte. -/
def fromHexChar (c : Byte) : Option Nat :=
  if 48 ≤ c.val ∧ c.val ≤ 57 then some (c.val - 48)
  else if 97 ≤ c.val ∧ c.val ≤ 102 then some (c.val - 97 + 10)
  else if 65 ≤ c.val ∧ c.val ≤ 70 then some (c.val - 65 + 10)
  else none

/-- The errors of `hex.Decode`. -/
inductive HexError where
  | invalidByte (b : Byte)
  | errLength
  deriving DecidableEq, Repr

/-- `hex.DecodeString`: the decoded bytes and the error.  On an error the bytes
decoded before it are returned.  The slice returned is never `nil`. -/
def hexDecodeString : List Byte → List Byte × Option HexError
  | [] => ([], none)
  | [p] =>
    match fromHexChar p with
    | none => ([], some (.invalidByte p))
    | some _ => ([], some .errLength)
  | p :: q :: rest =>
    match fromHexChar p with
    | none => ([], some (.invalidByte p))
    | some a =>
      match fromHexChar q with
      | none => ([], some (.invalidByte q))
      | some b =>
        let r := hexDecodeString rest
        (Fin.ofNat (a * 16 + b) :: r.1, r.2)

/-! ## strings.Split -/

/-- `strings.Split(s, sep)` for a one-byte separator: the substrings between the
occurrences of `sep`; `n` occurrences give `n + 1` fields. -/
def stringsSplit (s : List Byte) (sep : Byte) : List (List Byte) :=
  match s with
  | [] => [[]]
  | c :: cs =>
    if c = sep then [] :: stringsSplit cs sep
    else
      match stringsSplit cs sep with
      | [] => [[c]]
      | f :: fs => (c :: f) :: fs

/-- The separator of the wire format, the ASCII hyphen. -/
def hyphen : Byte := 45

/-! ## crypto/rand -/

/-- The random source: what it delivers at each successive call of `rand.Read`.
A call for `n` bytes that finds fewer than `n` (or nothing) is a failed read. -/
abbrev RandSource := List (List Byte)

/-- The error of a failed `rand.Read`. -/
inductive RandError where
  | entropy
  deriving DecidableEq, Repr

/-- `rand.Read(b)`: the delivered bytes overwrite the front of `b`, the rest of
`b` is left as it was; the error is set exactly when fewer than `len(b)` bytes
were delivered.  A read without error is `rand.Read` of every Go version; a read
with an error is `rand.Read` up to Go 1.23 (for Go 1.24 and later see
`randReadFatal`). -/
def randRead (b : List Byte) (rs : RandSource) : (List Byte × Option RandError) × RandSource :=
  match rs with
  | [] => ((b, some .entropy), [])
  | c :: rest =>
    let got := c.take b.length
    ((got ++ b.drop got.length, if got.length = b.length then none else some .entropy), rest)

/-! ## the cryptographic cores -/

/-- The cores of the imported cryptography. -/
structure Primitives where
  /-- `pbkdf2.Key(password, salt, iter, keyLen, sha256.New)`. -/
  pbkdf2Key : List Byte → List Byte → Nat → Nat → List Byte
  /-- What AES-GCM `Seal` computes from key, nonce and plaintext (no associated data). -/
  gcmSeal : List Byte → List Byte → List Byte → List Byte
  /-- What AES-GCM `Open` computes from key, nonce and sealed payload: `none` when
  the tag does not verify. -/
  gcmOpen : List Byte → List Byte → List Byte → Option (List Byte)

/-- Contract of `pbkdf2.Key`: the key has the requested length. -/
def KeyLength (P : Primitives) : Prop :=
  ∀ password salt iter keyLen, (P.pbkdf2Key password salt iter keyLen).length = keyLen

/-- Contract of GCM `Seal`: the payload is the plaintext length plus the 16-byte tag. -/
def SealLength (P : Primitives) : Prop :=
  ∀ key nonce plaintext, (P.gcmSeal key nonce plaintext).length = plaintext.length + 16

/-- Contract of GCM: with a 32-byte key and a 12-byte nonce, `Open` of what `Seal`
produced gives the plaintext back. -/
def OpenSeal (P : Primitives) : Prop :=
  ∀ key nonce plaintext, key.length = 32 → nonce.length = 12 →
    P.gcmOpen key nonce (P.gcmSeal key nonce plaintext) = some plaintext

/-- An AES block cipher: its key. -/
structure Block where
  key : List Byte
  deriving DecidableEq, Repr

/-- `aes.NewCipher(key)`: a cipher for a key of 16, 24 or 32 bytes; otherwise the
nil `Block` (`none`) that comes with a `KeySizeError`. -/
def aesNewCipher (key : List Byte) : Option Block :=
  if key.length = 16 ∨ key.length = 24 ∨ key.length = 32 then some ⟨key⟩ else none

/-- `cipher.NewGCM(b)`: the AEAD over `b` (standard 12-byte nonce, 16-byte tag);
on a nil `b` the call `b.BlockSize()` panics. -/
def cipherNewGCM (b : Option Block) : Outcome Block :=
  match b with
  | none => .panic .nilDereference
  | some blk => .ret blk

/-- `aesgcm.Seal(nil, nonce, plaintext, nil)`.  The bound GCM puts on the length
of the plaintext (2^36 - 32 bytes) is left out. -/
def aeadSeal (P : Primitives) (g : Block) (nonce plaintext : List Byte) : Outcome (List Byte) :=
  if nonce.length ≠ 12 then .panic .gcmNonceLength
  else .ret (P.gcmSeal g.key nonce plaintext)

/-- `aesgcm.Open(nil, nonce, ciphertext, nil)`: `none` is the nil slice returned
with the error of a failed authentication. -/
def aeadOpen (P : Primitives) (g : Block) (nonce ciphertext : List Byte) :
    Outcome (Option (List Byte)) :=
  if nonce.length ≠ 12 then .panic .gcmNonceLength
  else if ciphertext.length < 16 then .ret none
  else .ret (P.gcmOpen g.key nonce ciphertext)

/-- `string(data)`: the bytes of the slice, the empty string for `nil`. -/
def bytesToString (data : Option (List Byte)) : List Byte :=
  match data with
  | none => []
  | some d => d

/-! ## aespbkdf2.go -/

/-- `derivationKey(passphrase, salt)`: for a nil salt, 8 bytes are made and
`rand.Read` is called on them, its results dropped. -/
def derivationKey (P : Primitives) (passphrase : List Byte) (salt : Option (List Byte))
    (rs : RandSource) : (List Byte × List Byte) × RandSource :=
  match salt with
  | none =>
    let r := randRead (List.replicate 8 0) rs
    ((P.pbkdf2Key passphrase r.1.1 4096 32, r.1.1), r.2)
  | some s => ((P.pbkdf2Key passphrase s 4096 32, s), rs)

/-- `Encrypt(passphrase, plaintext)`. -/
def Encrypt (P : Primitives) (passphrase plaintext : List Byte) (rs : RandSource) :
    Outcome (List Byte) × RandSource :=
  let d := derivationKey P passphrase none rs
  let key := d.1.1
  let salt := d.1.2
  let r := randRead (List.replicate 12 0) d.2
  let iv := r.1.1
  let b := aesNewCipher key
  match cipherNewGCM b with
  | .panic p => (.panic p, r.2)
  | .ret aesgcm =>
    match aeadSeal P aesgcm iv plaintext with
    | .panic p => (.panic p, r.2)
    | .ret data =>
      (.ret (hexEncodeToString salt ++ [hyphen] ++ hexEncodeToString iv ++ [hyphen]
          ++ hexEncodeToString data), r.2)

/-- `arr[i]`. -/
def index (arr : List (List Byte)) (i : Nat) : Outcome (List Byte) :=
  match arr.get? i with
  | none => .panic (.indexOutOfRange i arr.length)
  | some f => .ret f

/-- `Decrypt(passphrase, ciphertext)`. -/
def Decrypt (P : Primitives) (passphrase ciphertext : List Byte) (rs : RandSource) :
    Outcome (List Byte) × RandSource :=
  let arr := stringsSplit ciphertext hyphen
  match index arr 0 with
  | .panic p => (.panic p, rs)
  | .ret f0 =>
    let salt := (hexDecodeString f0).1
    match index arr 1 with
    | .panic p => (.panic p, rs)
    | .ret f1 =>
      let iv := (hexDecodeString f1).1
      match index arr 2 with
      | .panic p => (.panic p, rs)
      | .ret f2 =>
        let data := (hexDecodeString f2).1
        let d := derivationKey P passphrase (some salt) rs
        let key := d.1.1
        let b := aesNewCipher key
        match cipherNewGCM b with
        | .panic p => (.panic p, d.2)
        | .ret aesgcm =>
          match aeadOpen P aesgcm iv data with
          | .panic p => (.panic p, d.2)
          | .ret opened => (.ret (bytesToString opened), d.2)

/-! ## aespbkdf2.go over crypto/rand of Go 1.24 and later -/

/-- Whether a `rand.Read` of `n` bytes fails on the source: nothing is left, or
the next delivery is shorter than `n`. -/
def readFails (n : Nat) (rs : RandSource) : Bool :=
  match rs with
  | [] => true
  | c :: _ => decide (c.length < n)

/-- Result of a call in a process that a fatal error may end: `fatal` is the end
of the process ("crypto/rand: failed to read random data"), which no caller can
recover from and after which nothing is returned. -/
inductive Fatal (α : Type) where
  | alive (v : α)
  | fatal
  deriving DecidableEq, Repr

/-- `rand.Read(b)` since Go 1.24: it fills `b` entirely and returns no error, or
the process ends with a fatal error. -/
def randReadFatal (b : List Byte) (rs : RandSource) : Fatal (List Byte × RandSource) :=
  match rs with
  | [] => .fatal
  | c :: rest => if c.length < b.length then .fatal else .alive (c.take b.length, rest)

/-- `derivationKey(passphrase, salt)` over `rand.Read` of Go 1.24 and later. -/
def derivationKeyFatal (P : Primitives) (passphrase : List Byte) (salt : Option (List Byte))
    (rs : RandSource) : Fatal ((List Byte × List Byte) × RandSource) :=
  match salt with
  | none =>
    match randReadFatal (List.replicate 8 0) rs with
    | .fatal => .fatal
    | .alive r => .alive ((P.pbkdf2Key passphrase r.1 4096 32, r.1), r.2)
  | some s => .alive ((P.pbkdf2Key passphrase s 4096 32, s), rs)

/-- `Encrypt(passphrase, plaintext)` over `rand.Read` of Go 1.24 and later. -/
def EncryptFatal (P : Primitives) (passphrase plaintext : List Byte) (rs : RandSource) :
    Fatal (Outcome (List Byte) × RandSource) :=
  match derivationKeyFatal P passphrase none rs with
  | .fatal => .fatal
  | .alive d =>
    let key := d.1.1
    let salt := d.1.2
    match randReadFatal (List.replicate 12 0) d.2 with
    | .fatal => .fatal
    | .alive r =>
      let iv := r.1
      let b := aesNewCipher key
      match cipherNewGCM b with
      | .panic p => .alive (.panic p, r.2)
      | .ret aesgcm =>
        match aeadSeal P aesgcm iv plaintext with
        | .panic p => .alive (.panic p, r.2)
        | .ret data =>
          .alive (.ret (hexEncodeToString salt ++ [hyphen] ++ hexEncodeToString iv ++ [hyphen]
            ++ hexEncodeToString data), r.2)

/-! ## a reference instance of the primitives -/

/-- A small key derivation used to instantiate the theorems: the password and the
salt, padded or cut to the requested length. -/
def refKey (password salt : List Byte) (_iter keyLen : Nat) : List Byte :=
  ((password ++ salt) ++ List.replicate keyLen 0).take keyLen

/-- The 16-byte tag of the reference AEAD. -/
def refTag (key nonce : List Byte) : List Byte :=
  ((key ++ nonce) ++ List.replicate 16 0).take 16

/-- Reference `Seal`: the plaintext followed by the tag. -/
def refSeal (key nonce plaintext : List Byte) : List Byte :=
  plaintext ++ refTag key nonce

/-- Reference `Open`: checks the last 16 bytes against the tag. -/
def refOpen (key nonce sealed : List Byte) : Option (List Byte) :=
  if sealed.drop (sealed.length - 16) = refTag key nonce then
    some (sealed.take (sealed.length - 16))
  else none

/-- The reference instance. -/
def refPrimitives : Primitives := ⟨refKey, refSeal, refOpen⟩


/-- The bytes `Encrypt` ends up with as salt: the 8-byte buffer after `rand.Read`. -/
def saltOf (rs : RandSource) : List Byte :=
  (randRead (List.replicate 8 0) rs).1.1

/-- The bytes `Encrypt` ends up with as nonce: the 12-byte buffer after the second `rand.Read`. -/
def nonceOf (rs : RandSource) : List Byte :=
  (randRead (List.replicate 12 0) (randRead (List.replicate 8 0) rs).2).1.1

/-- The bytes of an ASCII string literal. -/
def ascii (s : String) : List Byte :=
  s.toList.map fun c => Fin.ofNat c.toNat

/-- A passphrase, "pw". -/
def pw : List Byte := ascii "pw"

/-- Another passphrase, "px". -/
def px : List Byte := ascii "px"

/-- A plaintext, "hi". -/
def msg : List Byte := ascii "hi"

/-- The salt 01 02 .. 08. -/
def salt8 : List Byte := [1, 2, 3, 4, 5, 6, 7, 8]

/-- The nonce 01 02 .. 0c. -/
def nonce12 : List Byte := [1, 2, 3, 4, 5, 6, 7, 8, 9, 10, 11, 12]

/-- A random source that delivers `salt8`, then `nonce12`. -/
def rsOk : RandSource := [salt8, nonce12]

/-- What `Encrypt refPrimitives pw msg rsOk` returns. -/
def sampleCipher : List Byte :=
  ascii "0102030405060708-0102030405060708090a0b0c-686970770102030405060708000000000000"

/-- What `Encrypt refPrimitives pw [] rsOk` returns (the empty plaintext). -/
def emptyCipher : List Byte :=
  ascii "0102030405060708-0102030405060708090a0b0c-70770102030405060708000000000000"

/-! ## encoding/hex: lemmas -/

theorem fromHexChar_hextable (n : Nat) (h : n < 16) :
    fromHexChar (hextable.getD n 0) = some n := by
  interval_cases n <;> decide

theorem hextable_ne_hyphen (n : Nat) (h : n < 16) : hextable.getD n 0 ≠ hyphen := by
  interval_cases n <;> decide

theorem hexDecodeString_encode (bs : List Byte) :
    hexDecodeString (hexEncodeToString bs) = (bs, none) := by
  induction bs with
  | nil => rfl
  | cons v vs ih =>
    have hv := v.isLt
    have h1 : v.val / 16 < 16 := by omega
    have h2 : v.val % 16 < 16 := by omega
    have h3 : (Fin.ofNat (v.val / 16 * 16 + v.val % 16) : Byte) = v := by
      apply Fin.ext
      show (v.val / 16 * 16 + v.val % 16) % 256 = v.val
      omega
    simp only [hexEncodeToString, hexDecodeString, fromHexChar_hextable _ h1,
      fromHexChar_hextable _ h2, ih, h3]

theorem hexEncodeToString_length (bs : List Byte) :
    (hexEncodeToString bs).length = 2 * bs.length := by
  induction bs with
  | nil => rfl
  | cons v vs ih => simp only [hexEncodeToString, List.length_cons, ih]; omega

theorem hexEncodeToString_injective (a b : List Byte)
    (h : hexEncodeToString a = hexEncodeToString b) : a = b := by
  have := congrArg hexDecodeString h
  rw [hexDecodeString_encode, hexDecodeString_encode] at this
  exact (Prod.mk.inj this).1

theorem hyphen_not_mem_hexEncode (bs : List Byte) : hyphen ∉ hexEncodeToString bs := by
  induction bs with
  | nil => simp [hexEncodeToString]
  | cons v vs ih =>
    have hv := v.isLt
    have h1 : v.val / 16 < 16 := by omega
    have h2 : v.val % 16 < 16 := by omega
    simp only [hexEncodeToString, List.mem_cons, not_or]
    exact ⟨(hextable_ne_hyphen _ h1).symm, (hextable_ne_hyphen _ h2).symm, ih⟩

/-! ## strings.Split: lemmas -/

theorem stringsSplit_ne_nil (s : List Byte) (sep : Byte) : stringsSplit s sep ≠ [] := by
  induction s with
  | nil => simp [stringsSplit]
  | cons c cs ih =>
    unfold stringsSplit
    split
    · simp
    · split <;> simp

theorem stringsSplit_cons_self (cs : List Byte) (sep : Byte) :
    stringsSplit (sep :: cs) sep = [] :: stringsSplit cs sep := by
  rw [stringsSplit, if_pos rfl]

theorem stringsSplit_cons_of_ne (c : Byte) (cs : List Byte) (sep : Byte) (f : List Byte)
    (fs : List (List Byte)) (h : c ≠ sep) (hs : stringsSplit cs sep = f :: fs) :
    stringsSplit (c :: cs) sep = (c :: f) :: fs := by
  rw [stringsSplit, if_neg h, hs]

theorem stringsSplit_of_not_mem (a : List Byte) (sep : Byte) (h : sep ∉ a) :
    stringsSplit a sep = [a] := by
  induction a with
  | nil => rfl
  | cons c cs ih =>
    simp only [List.mem_cons, not_or] at h
    have hc : ¬ c = sep := fun e => h.1 e.symm
    exact stringsSplit_cons_of_ne c cs sep cs [] hc (ih h.2)

theorem stringsSplit_append (a rest : List Byte) (sep : Byte) (h : sep ∉ a) :
    stringsSplit (a ++ sep :: rest) sep = a :: stringsSplit rest sep := by
  induction a with
  | nil => exact stringsSplit_cons_self rest sep
  | cons c cs ih =>
    simp only [List.mem_cons, not_or] at h
    have hc : ¬ c = sep := fun e => h.1 e.symm
    rw [List.cons_append]
    exact stringsSplit_cons_of_ne c _ sep cs _ hc (ih h.2)

theorem stringsSplit_three (f0 f1 f2 : List Byte) (sep : Byte)
    (h0 : sep ∉ f0) (h1 : sep ∉ f1) (h2 : sep ∉ f2) :
    stringsSplit (f0 ++ [sep] ++ f1 ++ [sep] ++ f2) sep = [f0, f1, f2] := by
  have e : f0 ++ [sep] ++ f1 ++ [sep] ++ f2 = f0 ++ sep :: (f1 ++ sep :: f2) := by simp
  rw [e, stringsSplit_append _ _ _ h0, stringsSplit_append _ _ _ h1,
    stringsSplit_of_not_mem _ _ h2]

theorem stringsSplit_length (s : List Byte) (sep : Byte) :
    (stringsSplit s sep).length = s.count sep + 1 := by
  induction s with
  | nil => rfl
  | cons c cs ih =>
    unfold stringsSplit
    by_cases hc : c = sep
    · subst hc
      simp [ih]
    · have hne := stringsSplit_ne_nil cs sep
      simp only [hc, if_false]
      cases hs : stringsSplit cs sep with
      | nil => exact absurd hs hne
      | cons f fs =>
        rw [hs] at ih
        simp only [List.length_cons] at ih ⊢
        rw [List.count_cons_of_ne (Ne.symm hc)]
        exact ih

theorem not_mem_of_mem_stringsSplit (s : List Byte) (sep : Byte) :
    ∀ f ∈ stringsSplit s sep, sep ∉ f := by
  induction s with
  | nil => intro f hf; simp [stringsSplit] at hf; subst hf; simp
  | cons c cs ih =>
    intro f hf
    unfold stringsSplit at hf
    by_cases hc : c = sep
    · simp only [hc, if_true, List.mem_cons] at hf
      rcases hf with rfl | hf
      · simp
      · exact ih f hf
    · simp only [hc, if_false] at hf
      cases hs : stringsSplit cs sep with
      | nil => exact absurd hs (stringsSplit_ne_nil cs sep)
      | cons g gs =>
        rw [hs] at hf ih
        simp only [List.mem_cons] at hf
        rcases hf with rfl | hf
        · have := ih g (by simp)
          simp only [List.mem_cons, not_or]
          exact ⟨fun e => hc e.symm, this⟩
        · exact ih f (by simp [hf])


/-! ## the three functions: unfolding lemmas -/

theorem randRead_length (b : List Byte) (rs : RandSource) :
    (randRead b rs).1.1.length = b.length := by
  cases rs with
  | nil => rfl
  | cons c rest =>
    simp only [randRead, List.length_append, List.length_take, List.length_drop]
    omega

theorem saltOf_length (rs : RandSource) : (saltOf rs).length = 8 := by
  unfold saltOf
  rw [randRead_length, List.length_replicate]

theorem nonceOf_length (rs : RandSource) : (nonceOf rs).length = 12 := by
  unfold nonceOf
  rw [randRead_length, List.length_replicate]

theorem aesNewCipher_of_length (key : List Byte) (h : key.length = 32) :
    aesNewCipher key = some ⟨key⟩ := by
  simp [aesNewCipher, h]

theorem Encrypt_eq (P : Primitives) (hK : KeyLength P) (passphrase plaintext : List Byte)
    (rs : RandSource) :
    (Encrypt P passphrase plaintext rs).1 =
      .ret (hexEncodeToString (saltOf rs) ++ [hyphen] ++ hexEncodeToString (nonceOf rs)
        ++ [hyphen] ++ hexEncodeToString
          (P.gcmSeal (P.pbkdf2Key passphrase (saltOf rs) 4096 32) (nonceOf rs) plaintext)) := by
  have hn : (randRead (List.replicate 12 0) (randRead (List.replicate 8 0) rs).2).1.1.length
      = 12 := nonceOf_length rs
  simp only [Encrypt, derivationKey, aesNewCipher_of_length _ (hK _ _ _ _), cipherNewGCM,
    aeadSeal, hn, saltOf, nonceOf, ne_eq, not_true_eq_false, if_false]

theorem index_zero (f0 : List Byte) (fs : List (List Byte)) : index (f0 :: fs) 0 = .ret f0 := rfl

theorem index_one (f0 f1 : List Byte) (fs : List (List Byte)) :
    index (f0 :: f1 :: fs) 1 = .ret f1 := rfl

theorem index_two (f0 f1 f2 : List Byte) (fs : List (List Byte)) :
    index (f0 :: f1 :: f2 :: fs) 2 = .ret f2 := rfl

/-- What `Decrypt` does once the three fields are in hand. -/
theorem Decrypt_eq (P : Primitives) (hK : KeyLength P) (passphrase ciphertext : List Byte)
    (rs : RandSource) (f0 f1 f2 : List Byte) (rest : List (List Byte))
    (hs : stringsSplit ciphertext hyphen = f0 :: f1 :: f2 :: rest) :
    Decrypt P passphrase ciphertext rs =
      match aeadOpen P ⟨P.pbkdf2Key passphrase (hexDecodeString f0).1 4096 32⟩
          (hexDecodeString f1).1 (hexDecodeString f2).1 with
      | .panic p => (.panic p, rs)
      | .ret opened => (.ret (bytesToString opened), rs) := by
  simp only [Decrypt, hs, index_zero, index_one, index_two, derivationKey,
    aesNewCipher_of_length _ (hK _ _ _ _), cipherNewGCM]

theorem Decrypt_short_one (P : Primitives) (passphrase ciphertext : List Byte)
    (rs : RandSource) (f0 : List Byte) (hs : stringsSplit ciphertext hyphen = [f0]) :
    Decrypt P passphrase ciphertext rs = (.panic (.indexOutOfRange 1 1), rs) := by
  simp only [Decrypt, hs, index_zero]
  rfl

theorem Decrypt_short_two (P : Primitives) (passphrase ciphertext : List Byte)
    (rs : RandSource) (f0 f1 : List Byte) (hs : stringsSplit ciphertext hyphen = [f0, f1]) :
    Decrypt P passphrase ciphertext rs = (.panic (.indexOutOfRange 2 2), rs) := by
  simp only [Decrypt, hs, index_zero, index_one]
  rfl

/-! ## the reference instance meets the contracts -/

theorem refPrimitives_keyLength : KeyLength refPrimitives := by
  intro password salt iter keyLen
  show (refKey password salt iter keyLen).length = keyLen
  simp only [refKey, List.length_take, List.length_append, List.length_replicate]
  omega

theorem refTag_length (key nonce : List Byte) : (refTag key nonce).length = 16 := by
  simp only [refTag, List.length_take, List.length_append, List.length_replicate]
  omega

theorem refPrimitives_sealLength : SealLength refPrimitives := by
  intro key nonce plaintext
  show (refSeal key nonce plaintext).length = plaintext.length + 16
  simp [refSeal, refTag_length]

theorem refPrimitives_openSeal : OpenSeal refPrimitives := by
  intro key nonce plaintext _ _
  show refOpen key nonce (refSeal key nonce plaintext) = some plaintext
  simp [refOpen, refSeal, refTag_length]

/-! ## round trip, shared -/

theorem Decrypt_Encrypt (P : Primitives) (hK : KeyLength P) (hL : SealLength P)
    (hO : OpenSeal P) (passphrase plaintext : List Byte) (rs rs2 : RandSource) :
    ∃ c, (Encrypt P passphrase plaintext rs).1 = .ret c ∧
      (Decrypt P passphrase c rs2).1 = .ret plaintext := by
  refine ⟨_, Encrypt_eq P hK passphrase plaintext rs, ?_⟩
  rw [Decrypt_eq P hK passphrase _ rs2 _ _ _ []
    (stringsSplit_three _ _ _ hyphen (hyphen_not_mem_hexEncode _) (hyphen_not_mem_hexEncode _)
      (hyphen_not_mem_hexEncode _))]
  simp only [hexDecodeString_encode, aeadOpen, nonceOf_length, hL _ _ _, ne_eq,
    not_true_eq_false, if_false]
  have h16 : ¬ plaintext.length + 16 < 16 := by omega
  rw [if_neg h16, hO _ _ _ (hK _ _ _ _) (nonceOf_length rs)]
  rfl

/-! ## further unfolding lemmas -/

/-- `Decrypt` reads its input only through the bytes decoded from the first three fields. -/
theorem Decrypt_fields (P : Primitives) (passphrase c c2 : List Byte) (rs : RandSource)
    (f0 f1 f2 g0 g1 g2 : List Byte) (r r2 : List (List Byte))
    (hs : stringsSplit c hyphen = f0 :: f1 :: f2 :: r)
    (hs2 : stringsSplit c2 hyphen = g0 :: g1 :: g2 :: r2)
    (e0 : (hexDecodeString f0).1 = (hexDecodeString g0).1)
    (e1 : (hexDecodeString f1).1 = (hexDecodeString g1).1)
    (e2 : (hexDecodeString f2).1 = (hexDecodeString g2).1) :
    Decrypt P passphrase c rs = Decrypt P passphrase c2 rs := by
  simp only [Decrypt, hs, hs2, index_zero, index_one, index_two, e0, e1, e2]

theorem randRead_cons_of_le (b c : List Byte) (rest : RandSource) (h : b.length ≤ c.length) :
    randRead b (c :: rest) = ((c.take b.length, none), rest) := by
  have hl : (c.take b.length).length = b.length := by
    rw [List.length_take]; omega
  simp only [randRead, hl, List.drop_length, List.append_nil, if_true]

theorem saltOf_cons (s : List Byte) (rest : RandSource) (h : s.length = 8) :
    saltOf (s :: rest) = s := by
  unfold saltOf
  rw [randRead_cons_of_le _ _ _ (by rw [List.length_replicate]; omega)]
  show s.take (List.replicate 8 (0 : Byte)).length = s
  rw [List.length_replicate, ← h, List.take_length]

theorem nonceOf_cons (s n : List Byte) (rest : RandSource) (hs : s.length = 8)
    (hn : n.length = 12) : nonceOf (s :: n :: rest) = n := by
  unfold nonceOf
  rw [randRead_cons_of_le _ s _ (by rw [List.length_replicate]; omega)]
  show (randRead (List.replicate 12 0) (n :: rest)).1.1 = n
  rw [randRead_cons_of_le _ n _ (by rw [List.length_replicate]; omega)]
  show n.take (List.replicate 12 (0 : Byte)).length = n
  rw [List.length_replicate, ← hn, List.take_length]

/-! ## crypto/rand of Go 1.24 and later: lemmas -/

theorem randReadFatal_of_fails (b : List Byte) (rs : RandSource)
    (h : readFails b.length rs = true) : randReadFatal b rs = .fatal := by
  cases rs with
  | nil => rfl
  | cons c rest =>
    have hc : c.length < b.length := by simpa [readFails] using h
    simp only [randReadFatal, hc, if_true]

theorem randReadFatal_of_le (b c : List Byte) (rest : RandSource) (h : b.length ≤ c.length) :
    randReadFatal b (c :: rest) = .alive (c.take b.length, rest) := by
  have hc : ¬ c.length < b.length := by omega
  simp only [randReadFatal, hc, if_false]

theorem derivationKeyFatal_of_fails (P : Primitives) (passphrase : List Byte) (rs : RandSource)
    (h : readFails 8 rs = true) : derivationKeyFatal P passphrase none rs = .fatal := by
  have h2 : readFails (List.replicate 8 (0 : Byte)).length rs = true := by
    rw [List.length_replicate]; exact h
  simp only [derivationKeyFatal, randReadFatal_of_fails _ rs h2]

theorem EncryptFatal_of_fails (P : Primitives) (passphrase plaintext : List Byte)
    (rs : RandSource) (h : readFails 8 rs = true ∨ readFails 12 rs.tail = true) :
    EncryptFatal P passphrase plaintext rs = .fatal := by
  by_cases h8 : readFails 8 rs = true
  · simp only [EncryptFatal, derivationKeyFatal_of_fails P passphrase rs h8]
  · have h12 : readFails 12 rs.tail = true := h.resolve_left h8
    cases rs with
    | nil => exact absurd rfl h8
    | cons c rest =>
      have hc : (List.replicate 8 (0 : Byte)).length ≤ c.length := by
        rw [List.length_replicate]
        have : ¬ c.length < 8 := by simpa [readFails] using h8
        omega
      have h2 : readFails (List.replicate 12 (0 : Byte)).length rest = true := by
        rw [List.length_replicate]; exact h12
      simp only [EncryptFatal, derivationKeyFatal, randReadFatal_of_le _ c rest hc,
        randReadFatal_of_fails _ rest h2]

theorem delivers_of_not_fails (rs : RandSource) (h8 : readFails 8 rs = false)
    (h12 : readFails 12 rs.tail = false) :
    ∃ s n t, rs = s :: n :: t ∧ 8 ≤ s.length ∧ 12 ≤ n.length := by
  cases rs with
  | nil => cases h8
  | cons s rest =>
    cases rest with
    | nil => cases h12
    | cons n t =>
      refine ⟨s, n, t, rfl, ?_, ?_⟩
      · have : ¬ s.length < 8 := by simpa [readFails] using h8
        omega
      · have : ¬ n.length < 12 := by simpa [readFails] using h12
        omega

theorem saltOf_of_le (s : List Byte) (rest : RandSource) (h : 8 ≤ s.length) :
    saltOf (s :: rest) = s.take 8 := by
  unfold saltOf
  rw [randRead_cons_of_le _ _ _ (by rw [List.length_replicate]; exact h),
    List.length_replicate]

theorem nonceOf_of_le (s n : List Byte) (rest : RandSource) (hs : 8 ≤ s.length)
    (hn : 12 ≤ n.length) : nonceOf (s :: n :: rest) = n.take 12 := by
  unfold nonceOf
  rw [randRead_cons_of_le _ s _ (by rw [List.length_replicate]; exact hs)]
  show (randRead (List.replicate 12 0) (n :: rest)).1.1 = n.take 12
  rw [randRead_cons_of_le _ n _ (by rw [List.length_replicate]; exact hn),
    List.length_replicate]

/-- Where both reads are served in full, the two embeddings of `Encrypt` agree. -/
theorem EncryptFatal_alive (P : Primitives) (passphrase plaintext s n : List Byte)
    (t : RandSource) (hs : 8 ≤ s.length) (hn : 12 ≤ n.length) :
    EncryptFatal P passphrase plaintext (s :: n :: t)
      = .alive (Encrypt P passphrase plaintext (s :: n :: t)) := by
  have hs2 : (List.replicate 8 (0 : Byte)).length ≤ s.length := by
    rw [List.length_replicate]; exact hs
  have hn2 : (List.replicate 12 (0 : Byte)).length ≤ n.length := by
    rw [List.length_replicate]; exact hn
  simp only [EncryptFatal, Encrypt, derivationKeyFatal, derivationKey,
    randReadFatal_of_le _ s _ hs2, randReadFatal_of_le _ n _ hn2,
    randRead_cons_of_le _ s _ hs2, randRead_cons_of_le _ n _ hn2]
  generalize cipherNewGCM (aesNewCipher (P.pbkdf2Key passphrase
      (s.take (List.replicate 8 (0 : Byte)).length) 4096 32)) = x
  cases x with
  | panic p => rfl
  | ret g =>
    dsimp only
    generalize aeadSeal P g (n.take (List.replicate 12 (0 : Byte)).length) plaintext = y
    cases y <;> rfl

/-! ## claims -/

/-- C1 (round trip): for every passphrase, every plaintext (the empty one
included) and every state of the random source, `Encrypt` returns a string, and
`Decrypt` with the same passphrase returns the plaintext from that string. -/
theorem roundTrip (P : Primitives) (hK : KeyLength P) (hL : SealLength P) (hO : OpenSeal P)
    (passphrase plaintext : List Byte) (rs rs2 : RandSource) :
    ∃ c, (Encrypt P passphrase plaintext rs).1 = .ret c ∧
      (Decrypt P passphrase c rs2).1 = .ret plaintext :=
  Decrypt_Encrypt P hK hL hO passphrase plaintext rs rs2

/-- Witness of C1 at the reference primitives, passphrase "pw", plaintext "hi". -/
theorem roundTrip_witness :
    KeyLength refPrimitives ∧ SealLength refPrimitives ∧ OpenSeal refPrimitives ∧
    ∃ c, (Encrypt refPrimitives pw msg rsOk).1 = .ret c ∧
      (Decrypt refPrimitives pw c []).1 = .ret msg :=
  ⟨refPrimitives_keyLength, refPrimitives_sealLength, refPrimitives_openSeal,
    roundTrip refPrimitives refPrimitives_keyLength refPrimitives_sealLength
      refPrimitives_openSeal pw msg rsOk []⟩

/-- C2 (wire format): the string `Encrypt` returns is hex(salt), a hyphen,
hex(nonce), a hyphen, hex(payload); it holds exactly two hyphens; the fields have
16, 24 and 2*(len(plaintext)+16) characters; and splitting on the hyphen gives
exactly these three fields. -/
theorem wireFormat (P : Primitives) (hK : KeyLength P) (hL : SealLength P)
    (passphrase plaintext : List Byte) (rs : RandSource) :
    ∃ salt nonce payload c,
      salt = saltOf rs ∧ nonce = nonceOf rs ∧
      payload = P.gcmSeal (P.pbkdf2Key passphrase salt 4096 32) nonce plaintext ∧
      c = hexEncodeToString salt ++ [hyphen] ++ hexEncodeToString nonce ++ [hyphen]
        ++ hexEncodeToString payload ∧
      (Encrypt P passphrase plaintext rs).1 = .ret c ∧
      c.count hyphen = 2 ∧
      (hexEncodeToString salt).length = 16 ∧
      (hexEncodeToString nonce).length = 24 ∧
      (hexEncodeToString payload).length = 2 * (plaintext.length + 16) ∧
      stringsSplit c hyphen =
        [hexEncodeToString salt, hexEncodeToString nonce, hexEncodeToString payload] := by
  have hsplit := stringsSplit_three
    (hexEncodeToString (saltOf rs)) (hexEncodeToString (nonceOf rs))
    (hexEncodeToString (P.gcmSeal (P.pbkdf2Key passphrase (saltOf rs) 4096 32) (nonceOf rs)
      plaintext)) hyphen
    (hyphen_not_mem_hexEncode _) (hyphen_not_mem_hexEncode _) (hyphen_not_mem_hexEncode _)
  refine ⟨_, _, _, _, rfl, rfl, rfl, rfl, Encrypt_eq P hK passphrase plaintext rs, ?_, ?_, ?_,
    ?_, hsplit⟩
  · have h := stringsSplit_length (hexEncodeToString (saltOf rs) ++ [hyphen]
      ++ hexEncodeToString (nonceOf rs) ++ [hyphen] ++ hexEncodeToString
        (P.gcmSeal (P.pbkdf2Key passphrase (saltOf rs) 4096 32) (nonceOf rs) plaintext)) hyphen
    rw [hsplit] at h
    simp only [List.length_cons, List.length_nil] at h
    omega
  · rw [hexEncodeToString_length, saltOf_length]
  · rw [hexEncodeToString_length, nonceOf_length]
  · rw [hexEncodeToString_length, hL]

/-- Witness of C2 at the reference primitives, passphrase "pw", plaintext "hi". -/
theorem wireFormat_witness :
    KeyLength refPrimitives ∧ SealLength refPrimitives ∧
    ∃ salt nonce payload c,
      salt = saltOf rsOk ∧ nonce = nonceOf rsOk ∧
      payload = refPrimitives.gcmSeal (refPrimitives.pbkdf2Key pw salt 4096 32) nonce msg ∧
      c = hexEncodeToString salt ++ [hyphen] ++ hexEncodeToString nonce ++ [hyphen]
        ++ hexEncodeToString payload ∧
      (Encrypt refPrimitives pw msg rsOk).1 = .ret c ∧
      c.count hyphen = 2 ∧
      (hexEncodeToString salt).length = 16 ∧
      (hexEncodeToString nonce).length = 24 ∧
      (hexEncodeToString payload).length = 2 * (msg.length + 16) ∧
      stringsSplit c hyphen =
        [hexEncodeToString salt, hexEncodeToString nonce, hexEncodeToString payload] :=
  ⟨refPrimitives_keyLength, refPrimitives_sealLength,
    wireFormat refPrimitives refPrimitives_keyLength refPrimitives_sealLength pw msg rsOk⟩

/-- C3, refuted as stated: with the reference primitives, the string encrypted
under "pw" and decrypted under "px" fails the AEAD open step and `Decrypt` returns
the empty string; so does an input whose payload (2 bytes) is shorter than the
tag, which `Open` rejects whatever the cipher computes; and the empty string is
exactly what `Decrypt` returns for the encryption of the empty plaintext. -/
theorem authFailure_counterexample :
    (Encrypt refPrimitives pw msg rsOk).1 = .ret sampleCipher ∧
    aeadOpen refPrimitives ⟨refKey px salt8 4096 32⟩ nonce12
      (refSeal (refKey pw salt8 4096 32) nonce12 msg) = .ret none ∧
    (Decrypt refPrimitives px sampleCipher []).1 = .ret [] ∧
    (Decrypt refPrimitives pw (ascii "0102030405060708-0102030405060708090a0b0c-6869") []).1
      = .ret [] ∧
    (Encrypt refPrimitives pw [] rsOk).1 = .ret emptyCipher ∧
    (Decrypt refPrimitives pw emptyCipher []).1 = .ret [] := by
  decide

/-- C3 (amended): `Decrypt` has no authentication-failure result.  Whenever the
AEAD open step fails on the decoded fields, `Decrypt` returns the empty string,
and that is also what it returns for the encryption of the empty plaintext under
the same passphrase. -/
theorem authFailure_returns_empty (P : Primitives) (hK : KeyLength P) (hL : SealLength P)
    (hO : OpenSeal P) (passphrase c : List Byte) (rs : RandSource)
    (f0 f1 f2 : List Byte) (rest : List (List Byte))
    (hs : stringsSplit c hyphen = f0 :: f1 :: f2 :: rest)
    (hfail : aeadOpen P ⟨P.pbkdf2Key passphrase (hexDecodeString f0).1 4096 32⟩
      (hexDecodeString f1).1 (hexDecodeString f2).1 = .ret none) :
    (Decrypt P passphrase c rs).1 = .ret [] ∧
    ∀ rs0 : RandSource, ∃ c0, (Encrypt P passphrase [] rs0).1 = .ret c0 ∧
      (Decrypt P passphrase c0 rs).1 = (Decrypt P passphrase c rs).1 := by
  have h1 : (Decrypt P passphrase c rs).1 = .ret [] := by
    rw [Decrypt_eq P hK passphrase c rs f0 f1 f2 rest hs, hfail]
    rfl
  refine ⟨h1, fun rs0 => ?_⟩
  obtain ⟨c0, he, hd⟩ := Decrypt_Encrypt P hK hL hO passphrase [] rs0 rs
  exact ⟨c0, he, by rw [hd, h1]⟩

/-- Witness of C3 (amended): the reference primitives, the string encrypted under
"pw", decrypted under "px". -/
theorem authFailure_returns_empty_witness :
    stringsSplit sampleCipher hyphen = [ascii "0102030405060708",
      ascii "0102030405060708090a0b0c", ascii "686970770102030405060708000000000000"] ∧
    ((Decrypt refPrimitives px sampleCipher []).1 = .ret [] ∧
    ∀ rs0 : RandSource, ∃ c0, (Encrypt refPrimitives px [] rs0).1 = .ret c0 ∧
      (Decrypt refPrimitives px c0 []).1 = (Decrypt refPrimitives px sampleCipher []).1) :=
  ⟨by decide,
    authFailure_returns_empty refPrimitives refPrimitives_keyLength refPrimitives_sealLength
      refPrimitives_openSeal px sampleCipher [] (ascii "0102030405060708")
      (ascii "0102030405060708090a0b0c") (ascii "686970770102030405060708000000000000") []
      (by decide) (by decide)⟩

/-- C4, refuted as stated: an input of one field makes `Decrypt` panic, and an
input of four fields (a valid ciphertext followed by "-ff") is decrypted from its
first three fields without any error. -/
theorem fieldCount_counterexample :
    (stringsSplit (ascii "abc") hyphen).length = 1 ∧
    (Decrypt refPrimitives pw (ascii "abc") []).1 = .panic (.indexOutOfRange 1 1) ∧
    (stringsSplit (sampleCipher ++ ascii "-ff") hyphen).length = 4 ∧
    (Decrypt refPrimitives pw (sampleCipher ++ ascii "-ff") []).1 = .ret msg := by
  decide

/-- C4 (amended): `Decrypt` makes no field-count check.  For every input that
splits into more than three fields it ignores the fields after the third: it
returns exactly what it returns for the first three fields joined by hyphens. -/
theorem extraFields_ignored (P : Primitives) (passphrase c : List Byte) (rs : RandSource)
    (h : 3 < (stringsSplit c hyphen).length) :
    ∃ f0 f1 f2 rest, stringsSplit c hyphen = f0 :: f1 :: f2 :: rest ∧ rest ≠ [] ∧
      stringsSplit (f0 ++ [hyphen] ++ f1 ++ [hyphen] ++ f2) hyphen = [f0, f1, f2] ∧
      Decrypt P passphrase c rs
        = Decrypt P passphrase (f0 ++ [hyphen] ++ f1 ++ [hyphen] ++ f2) rs := by
  have hmem := not_mem_of_mem_stringsSplit c hyphen
  cases hs : stringsSplit c hyphen with
  | nil => rw [hs] at h; simp at h
  | cons f0 t0 =>
    cases t0 with
    | nil => rw [hs] at h; simp at h
    | cons f1 t1 =>
      cases t1 with
      | nil => rw [hs] at h; simp at h
      | cons f2 rest =>
        cases rest with
        | nil => rw [hs] at h; simp at h
        | cons f3 t3 =>
          rw [hs] at hmem
          have h3 := stringsSplit_three f0 f1 f2 hyphen (hmem f0 (by simp)) (hmem f1 (by simp))
            (hmem f2 (by simp))
          exact ⟨f0, f1, f2, f3 :: t3, rfl, by simp, h3,
            Decrypt_fields P passphrase c _ rs f0 f1 f2 f0 f1 f2 _ _ hs h3 rfl rfl rfl⟩

/-- Witness of C4 (amended): a valid ciphertext followed by "-ff". -/
theorem extraFields_ignored_witness :
    3 < (stringsSplit (sampleCipher ++ ascii "-ff") hyphen).length ∧
    ∃ f0 f1 f2 rest, stringsSplit (sampleCipher ++ ascii "-ff") hyphen = f0 :: f1 :: f2 :: rest ∧
      rest ≠ [] ∧
      stringsSplit (f0 ++ [hyphen] ++ f1 ++ [hyphen] ++ f2) hyphen = [f0, f1, f2] ∧
      Decrypt refPrimitives pw (sampleCipher ++ ascii "-ff") []
        = Decrypt refPrimitives pw (f0 ++ [hyphen] ++ f1 ++ [hyphen] ++ f2) [] :=
  ⟨by decide, extraFields_ignored refPrimitives pw (sampleCipher ++ ascii "-ff") [] (by decide)⟩

/-- C5, refuted as stated: a valid ciphertext followed by "zz" has three fields,
the third is not valid hex, and `Decrypt` returns the plaintext from the bytes
decoded before the invalid character; and for an input whose salt field is "zz"
`Decrypt` goes on with the empty salt and returns the empty string. -/
theorem invalidHex_counterexample :
    (hexDecodeString (ascii "zz")) = ([], some (.invalidByte 122)) ∧
    (Decrypt refPrimitives pw (ascii "zz-0102030405060708090a0b0c-") []).1 = .ret [] ∧
    stringsSplit (sampleCipher ++ ascii "zz") hyphen = [ascii "0102030405060708",
      ascii "0102030405060708090a0b0c", ascii "686970770102030405060708000000000000zz"] ∧
    (hexDecodeString (ascii "686970770102030405060708000000000000zz")).2
      = some (.invalidByte 122) ∧
    (Decrypt refPrimitives pw (sampleCipher ++ ascii "zz") []).1 = .ret msg := by
  decide

/-- C5 (amended): `Decrypt` drops the error of `hex.DecodeString`.  For every
input of three fields of which at least one is not valid hex, it continues with
the bytes decoded before the first invalid position of each field: it returns
exactly what it returns for the input whose fields are the hex encodings of those
bytes. -/
theorem invalidHex_continues (P : Primitives) (passphrase c : List Byte) (rs : RandSource)
    (f0 f1 f2 : List Byte) (hs : stringsSplit c hyphen = [f0, f1, f2])
    (_hbad : (hexDecodeString f0).2 ≠ none ∨ (hexDecodeString f1).2 ≠ none ∨
      (hexDecodeString f2).2 ≠ none) :
    Decrypt P passphrase c rs =
      Decrypt P passphrase (hexEncodeToString (hexDecodeString f0).1 ++ [hyphen]
        ++ hexEncodeToString (hexDecodeString f1).1 ++ [hyphen]
        ++ hexEncodeToString (hexDecodeString f2).1) rs := by
  refine Decrypt_fields P passphrase c _ rs f0 f1 f2 _ _ _ [] [] hs
    (stringsSplit_three _ _ _ hyphen (hyphen_not_mem_hexEncode _) (hyphen_not_mem_hexEncode _)
      (hyphen_not_mem_hexEncode _)) ?_ ?_ ?_ <;>
  rw [hexDecodeString_encode]

/-- Witness of C5 (amended): a valid ciphertext followed by "zz". -/
theorem invalidHex_continues_witness :
    (hexDecodeString (ascii "686970770102030405060708000000000000zz")).2 ≠ none ∧
    Decrypt refPrimitives pw (sampleCipher ++ ascii "zz") [] =
      Decrypt refPrimitives pw
        (hexEncodeToString (hexDecodeString (ascii "0102030405060708")).1 ++ [hyphen]
        ++ hexEncodeToString (hexDecodeString (ascii "0102030405060708090a0b0c")).1 ++ [hyphen]
        ++ hexEncodeToString
          (hexDecodeString (ascii "686970770102030405060708000000000000zz")).1) [] :=
  ⟨by decide,
    invalidHex_continues refPrimitives pw (sampleCipher ++ ascii "zz") []
      (ascii "0102030405060708") (ascii "0102030405060708090a0b0c")
      (ascii "686970770102030405060708000000000000zz") (by decide)
      (Or.inr (Or.inr (by decide)))⟩

/-- C6 (key derivation with a salt): for a supplied salt, `derivationKey` returns
the PBKDF2 key of 4096 iterations and 32 bytes over passphrase and salt, together
with the salt unchanged; the key has 32 bytes; the random source is left as it
was; and the key is the same at every call, whatever the random source. -/
theorem derivationKey_present (P : Primitives) (hK : KeyLength P)
    (passphrase salt : List Byte) (rs : RandSource) :
    derivationKey P passphrase (some salt) rs
      = ((P.pbkdf2Key passphrase salt 4096 32, salt), rs) ∧
    (derivationKey P passphrase (some salt) rs).1.1.length = 32 ∧
    ∀ rs2 : RandSource, (derivationKey P passphrase (some salt) rs2).1.1
      = (derivationKey P passphrase (some salt) rs).1.1 :=
  ⟨rfl, hK _ _ _ _, fun _ => rfl⟩

/-- Witness of C6: the reference primitives, passphrase "pw", salt 01..08. -/
theorem derivationKey_present_witness :
    KeyLength refPrimitives ∧
    (derivationKey refPrimitives pw (some salt8) rsOk
      = ((refPrimitives.pbkdf2Key pw salt8 4096 32, salt8), rsOk) ∧
    (derivationKey refPrimitives pw (some salt8) rsOk).1.1.length = 32 ∧
    ∀ rs2 : RandSource, (derivationKey refPrimitives pw (some salt8) rs2).1.1
      = (derivationKey refPrimitives pw (some salt8) rsOk).1.1) :=
  ⟨refPrimitives_keyLength,
    derivationKey_present refPrimitives refPrimitives_keyLength pw salt8 rsOk⟩

/-- C7, refuted as stated: a salt that is empty but not nil is not replaced.
`derivationKey` derives the key from the zero-length salt, returns that salt, and
reads nothing from the random source, although it had 8 bytes to give. -/
theorem emptySalt_counterexample :
    derivationKey refPrimitives pw (some []) rsOk
      = ((refPrimitives.pbkdf2Key pw [] 4096 32, []), rsOk) ∧
    (derivationKey refPrimitives pw (some []) rsOk).1.2.length = 0 ∧
    (hexDecodeString []).1 = [] := by
  decide

/-- C7 (amended): whenever the salt passed is nil and the random source
delivers at least 8 bytes, `derivationKey` takes 8 of them as the salt, derives
the key from them and returns that 8-byte salt.  A salt that is empty but not nil
is used as it is: the key is derived from the zero-length salt and the random
source is not read. -/
theorem derivationKey_nil (P : Primitives) (passphrase c : List Byte) (rest : RandSource)
    (h : 8 ≤ c.length) :
    derivationKey P passphrase none (c :: rest)
      = ((P.pbkdf2Key passphrase (c.take 8) 4096 32, c.take 8), rest) ∧
    (c.take 8).length = 8 ∧
    ∀ rs : RandSource, derivationKey P passphrase (some []) rs
      = ((P.pbkdf2Key passphrase [] 4096 32, []), rs) := by
  have hr : randRead (List.replicate 8 0) (c :: rest) = ((c.take 8, none), rest) := by
    have := randRead_cons_of_le (List.replicate 8 0) c rest
      (by rw [List.length_replicate]; exact h)
    rw [List.length_replicate] at this
    exact this
  refine ⟨?_, ?_, fun _ => rfl⟩
  · simp only [derivationKey, hr]
  · rw [List.length_take]; omega

/-- Witness of C7 (amended): a random source that delivers 01..08. -/
theorem derivationKey_nil_witness :
    8 ≤ salt8.length ∧
    (derivationKey refPrimitives pw none (salt8 :: [nonce12])
      = ((refPrimitives.pbkdf2Key pw (salt8.take 8) 4096 32, salt8.take 8), [nonce12]) ∧
    (salt8.take 8).length = 8 ∧
    ∀ rs : RandSource, derivationKey refPrimitives pw (some []) rs
      = ((refPrimitives.pbkdf2Key pw [] 4096 32, []), rs)) :=
  ⟨by decide, derivationKey_nil refPrimitives pw salt8 [nonce12] (by decide)⟩

/-- C8 (entropy failure aborts), over `rand.Read` of Go 1.24 and later: if the
read for the salt fails, `derivationKey` ends in the fatal error and gives no key;
if the read for the salt or the read for the nonce fails, `Encrypt` ends in the
fatal error and gives no ciphertext string; and whenever `Encrypt` does come
back, neither read failed and the salt and the nonce in use are the bytes the
source delivered, never a zero-filled buffer. -/
theorem entropyFailure_aborts (P : Primitives) (passphrase plaintext : List Byte)
    (rs : RandSource) :
    (readFails 8 rs = true → derivationKeyFatal P passphrase none rs = .fatal) ∧
    (readFails 8 rs = true ∨ readFails 12 rs.tail = true →
      EncryptFatal P passphrase plaintext rs = .fatal) ∧
    (∀ r, EncryptFatal P passphrase plaintext rs = .alive r →
      readFails 8 rs = false ∧ readFails 12 rs.tail = false ∧
      ∃ s n t, rs = s :: n :: t ∧ saltOf rs = s.take 8 ∧ nonceOf rs = n.take 12 ∧
        r = Encrypt P passphrase plaintext rs) := by
  have hd := derivationKeyFatal_of_fails P passphrase rs
  have he := EncryptFatal_of_fails P passphrase plaintext rs
  refine ⟨hd, he, fun r hr => ?_⟩
  have h8 : readFails 8 rs = false := by
    cases h : readFails 8 rs with
    | false => rfl
    | true => rw [he (Or.inl h)] at hr; cases hr
  have h12 : readFails 12 rs.tail = false := by
    cases h : readFails 12 rs.tail with
    | false => rfl
    | true => rw [he (Or.inr h)] at hr; cases hr
  obtain ⟨s, n, t, hrs, hs, hn⟩ := delivers_of_not_fails rs h8 h12
  subst hrs
  refine ⟨h8, h12, s, n, t, rfl, saltOf_of_le s _ hs, nonceOf_of_le s n t hs hn, ?_⟩
  rw [EncryptFatal_alive P passphrase plaintext s n t hs hn] at hr
  exact (Fatal.alive.inj hr).symm

/-- Witness of C8: a source that delivers nothing (the read for the salt fails)
and a source that delivers the salt only (the read for the nonce fails); a source
that delivers both lets `Encrypt` come back. -/
theorem entropyFailure_aborts_witness :
    readFails 8 [] = true ∧
    derivationKeyFatal refPrimitives pw none [] = .fatal ∧
    EncryptFatal refPrimitives pw msg [] = .fatal ∧
    readFails 8 [salt8] = false ∧ readFails 12 [] = true ∧
    EncryptFatal refPrimitives pw msg [salt8] = .fatal ∧
    EncryptFatal refPrimitives pw msg rsOk = .alive (.ret sampleCipher, []) :=
  ⟨by decide,
    (entropyFailure_aborts refPrimitives pw msg []).1 (by decide),
    (entropyFailure_aborts refPrimitives pw msg []).2.1 (Or.inl (by decide)),
    by decide, by decide,
    (entropyFailure_aborts refPrimitives pw msg [salt8]).2.1 (Or.inr (by decide)),
    by decide⟩

/-- C9 (salt and nonce uniqueness): two calls of `Encrypt` with the same
passphrase and plaintext, for which the random source delivers the salts `s1`,
`s2` and the nonces `n1`, `n2`, return strings whose first fields are the hex of
the salts and whose second fields are the hex of the nonces; the strings differ
when the salts or the nonces differ, the salt fields differ when the salts differ
and the nonce fields differ when the nonces differ. -/
theorem saltNonce_injective (P : Primitives) (hK : KeyLength P)
    (passphrase plaintext s1 n1 s2 n2 : List Byte) (t1 t2 : RandSource)
    (hs1 : s1.length = 8) (hn1 : n1.length = 12) (hs2 : s2.length = 8) (hn2 : n2.length = 12) :
    ∃ c1 c2,
      (Encrypt P passphrase plaintext (s1 :: n1 :: t1)).1 = .ret c1 ∧
      (Encrypt P passphrase plaintext (s2 :: n2 :: t2)).1 = .ret c2 ∧
      (stringsSplit c1 hyphen).get? 0 = some (hexEncodeToString s1) ∧
      (stringsSplit c2 hyphen).get? 0 = some (hexEncodeToString s2) ∧
      (stringsSplit c1 hyphen).get? 1 = some (hexEncodeToString n1) ∧
      (stringsSplit c2 hyphen).get? 1 = some (hexEncodeToString n2) ∧
      (s1 ≠ s2 ∨ n1 ≠ n2 → c1 ≠ c2) ∧
      (s1 ≠ s2 → (stringsSplit c1 hyphen).get? 0 ≠ (stringsSplit c2 hyphen).get? 0) ∧
      (n1 ≠ n2 → (stringsSplit c1 hyphen).get? 1 ≠ (stringsSplit c2 hyphen).get? 1) := by
  have e1 := Encrypt_eq P hK passphrase plaintext (s1 :: n1 :: t1)
  have e2 := Encrypt_eq P hK passphrase plaintext (s2 :: n2 :: t2)
  rw [saltOf_cons s1 _ hs1, nonceOf_cons s1 n1 _ hs1 hn1] at e1
  rw [saltOf_cons s2 _ hs2, nonceOf_cons s2 n2 _ hs2 hn2] at e2
  have p1 := stringsSplit_three (hexEncodeToString s1) (hexEncodeToString n1)
    (hexEncodeToString (P.gcmSeal (P.pbkdf2Key passphrase s1 4096 32) n1 plaintext)) hyphen
    (hyphen_not_mem_hexEncode _) (hyphen_not_mem_hexEncode _) (hyphen_not_mem_hexEncode _)
  have p2 := stringsSplit_three (hexEncodeToString s2) (hexEncodeToString n2)
    (hexEncodeToString (P.gcmSeal (P.pbkdf2Key passphrase s2 4096 32) n2 plaintext)) hyphen
    (hyphen_not_mem_hexEncode _) (hyphen_not_mem_hexEncode _) (hyphen_not_mem_hexEncode _)
  have hsalt : s1 ≠ s2 → hexEncodeToString s1 ≠ hexEncodeToString s2 :=
    fun hne he => hne (hexEncodeToString_injective _ _ he)
  have hnonce : n1 ≠ n2 → hexEncodeToString n1 ≠ hexEncodeToString n2 :=
    fun hne he => hne (hexEncodeToString_injective _ _ he)
  refine ⟨_, _, e1, e2, ?_, ?_, ?_, ?_, ?_, ?_, ?_⟩
  · rw [p1]; rfl
  · rw [p2]; rfl
  · rw [p1]; rfl
  · rw [p2]; rfl
  · intro hne hc
    have hsp := congrArg (fun c => stringsSplit c hyphen) hc
    simp only [p1, p2] at hsp
    have h0 : hexEncodeToString s1 = hexEncodeToString s2 := (List.cons.inj hsp).1
    have h1 : hexEncodeToString n1 = hexEncodeToString n2 :=
      (List.cons.inj (List.cons.inj hsp).2).1
    rcases hne with h | h
    · exact hsalt h h0
    · exact hnonce h h1
  · intro hne
    rw [p1, p2]
    exact fun he => hsalt hne (Option.some.inj he)
  · intro hne
    rw [p1, p2]
    exact fun he => hnonce hne (Option.some.inj he)

/-- Witness of C9: the salts 01..08 and 00..00, the nonces 01..0c and 00..00. -/
theorem saltNonce_injective_witness :
    KeyLength refPrimitives ∧ salt8.length = 8 ∧ nonce12.length = 12 ∧
    ∃ c1 c2,
      (Encrypt refPrimitives pw msg (salt8 :: nonce12 :: [])).1 = .ret c1 ∧
      (Encrypt refPrimitives pw msg
        (List.replicate 8 0 :: List.replicate 12 0 :: [])).1 = .ret c2 ∧
      (stringsSplit c1 hyphen).get? 0 = some (hexEncodeToString salt8) ∧
      (stringsSplit c2 hyphen).get? 0 = some (hexEncodeToString (List.replicate 8 0)) ∧
      (stringsSplit c1 hyphen).get? 1 = some (hexEncodeToString nonce12) ∧
      (stringsSplit c2 hyphen).get? 1 = some (hexEncodeToString (List.replicate 12 0)) ∧
      (salt8 ≠ List.replicate 8 0 ∨ nonce12 ≠ List.replicate 12 0 → c1 ≠ c2) ∧
      (salt8 ≠ List.replicate 8 0 →
        (stringsSplit c1 hyphen).get? 0 ≠ (stringsSplit c2 hyphen).get? 0) ∧
      (nonce12 ≠ List.replicate 12 0 →
        (stringsSplit c1 hyphen).get? 1 ≠ (stringsSplit c2 hyphen).get? 1) :=
  ⟨refPrimitives_keyLength, by decide, by decide,
    saltNonce_injective refPrimitives refPrimitives_keyLength pw msg salt8 nonce12
      (List.replicate 8 0) (List.replicate 12 0) [] [] (by decide) (by decide) (by decide)
      (by decide)⟩

/-- C10 (no panic): for an input of at least three fields whose second field
decodes to exactly 12 bytes, `Decrypt` returns a string: no index is out of range,
the cipher is built (the derived key has 32 bytes) and the nonce has the length
GCM asks for.  For an input of fewer than three fields the indexing is out of
range: `arr[1]` for one field, `arr[2]` for two. -/
theorem decrypt_noPanic (P : Primitives) (hK : KeyLength P) (passphrase c : List Byte)
    (rs : RandSource) :
    (3 ≤ (stringsSplit c hyphen).length →
      (∀ f1, (stringsSplit c hyphen).get? 1 = some f1 → (hexDecodeString f1).1.length = 12) →
      ∃ s, Decrypt P passphrase c rs = (.ret s, rs)) ∧
    ((stringsSplit c hyphen).length < 3 →
      Decrypt P passphrase c rs = (.panic (.indexOutOfRange (stringsSplit c hyphen).length
        (stringsSplit c hyphen).length), rs)) := by
  cases hs : stringsSplit c hyphen with
  | nil => exact absurd hs (stringsSplit_ne_nil c hyphen)
  | cons f0 t0 =>
    cases t0 with
    | nil =>
      refine ⟨fun h => by simp at h, fun _ => ?_⟩
      exact Decrypt_short_one P passphrase c rs f0 hs
    | cons f1 t1 =>
      cases t1 with
      | nil =>
        refine ⟨fun h => by simp at h, fun _ => ?_⟩
        exact Decrypt_short_two P passphrase c rs f0 f1 hs
      | cons f2 rest =>
        refine ⟨fun _ h12 => ?_, fun h => ?_⟩
        · have hlen : (hexDecodeString f1).1.length = 12 := h12 f1 rfl
          rw [Decrypt_eq P hK passphrase c rs f0 f1 f2 rest hs]
          simp only [aeadOpen, hlen, ne_eq, not_true_eq_false, if_false]
          by_cases h16 : (hexDecodeString f2).1.length < 16
          · rw [if_pos h16]; exact ⟨_, rfl⟩
          · rw [if_neg h16]; exact ⟨_, rfl⟩
        · simp only [List.length_cons] at h
          omega

/-- Witness of C10: the reference primitives; the sample ciphertext has three
fields and a 12-byte nonce, the input "abc" has one field. -/
theorem decrypt_noPanic_witness :
    KeyLength refPrimitives ∧
    (∃ s, Decrypt refPrimitives px sampleCipher [] = (.ret s, [])) ∧
    Decrypt refPrimitives px (ascii "abc") [] = (.panic (.indexOutOfRange 1 1), []) :=
  ⟨refPrimitives_keyLength,
    (decrypt_noPanic refPrimitives refPrimitives_keyLength px sampleCipher []).1 (by decide)
      (fun f1 h => by
        have e : f1 = ascii "0102030405060708090a0b0c" :=
          (Option.some.inj ((show (stringsSplit sampleCipher hyphen).get? 1
            = some (ascii "0102030405060708090a0b0c") by decide).symm.trans h)).symm
        rw [e]; decide),
    (decrypt_noPanic refPrimitives refPrimitives_keyLength px (ascii "abc") []).2 (by decide)⟩

end Aespbkdf2
